import Mathlib

/-!
Verification of the predicate/filter core of `jsonpath_ng/ext/filter.py`:
the classes `Filter`, `Negation`, `Conjunction`, `Disjunction`, `Expression`
and the `OPERATOR_MAP` table, embedded shallowly in Lean.

Python dynamic values are modelled by `PyVal`; Python exceptions by
`Except PyErr`.  Host-language behaviour that the source relies on
(`int(x)`, `bool(x)`, `==`, `<`, `re.search`, `isinstance(x, int)` being
true for booleans) is modelled explicitly.  Lists and mappings carry their
own cons spine inside `PyVal` (rather than a nested `List PyVal` field) so
that every recursive definition is structurally recursive and computable
by the kernel; `pyListOf` / `asList?` convert between the spine and
`List PyVal`.  The recursive comparison helpers take an explicit fuel
argument; the fuel passed at top level (`pyNodes` of the left value, the
number of nodes in it) always exceeds the recursion depth, so the
fuel-exhausted branches are unreachable.
-/

/-- A Python/JSON-like value: `None`, `bool`, `int`, `str`, `list`, `dict`.
Lists are `listNil`/`listCons` spines and dicts `dictNil`/`dictCons`
spines.  (`float` values do not occur in any behaviour under study.) -/
inductive PyVal where
  | none
  | bool (b : Bool)
  | int (n : Int)
  | str (s : String)
  | listNil
  | listCons (hd tl : PyVal)
  | dictNil
  | dictCons (key : String) (val tl : PyVal)
  deriving DecidableEq, Repr

/-- Build a `PyVal` list value from a Lean list of elements. -/
def pyListOf : List PyVal → PyVal
  | [] => .listNil
  | x :: xs => .listCons x (pyListOf xs)

/-- Build a `PyVal` dict value from a Lean association list. -/
def pyDictOf : List (String × PyVal) → PyVal
  | [] => .dictNil
  | (k, v) :: kvs => .dictCons k v (pyDictOf kvs)

/-- The elements of a `PyVal` that is a (well-formed) list value; `none`
for any other value.  `(asList? v).isSome` models `isinstance(v, list)`. -/
def asList? : PyVal → Option (List PyVal)
  | .listNil => some []
  | .listCons x xs => (asList? xs).map (x :: ·)
  | _ => Option.none

/-- The entries of a `PyVal` that is a (well-formed) dict value; `none`
for any other value.  `(asDict? v).isSome` models `isinstance(v, dict)`. -/
def asDict? : PyVal → Option (List (String × PyVal))
  | .dictNil => some []
  | .dictCons k v kvs => (asDict? kvs).map ((k, v) :: ·)
  | _ => Option.none

/-- The number of nodes of a value; used as fuel for the comparison
helpers (it always exceeds their recursion depth). -/
def pyNodes : PyVal → Nat
  | .listCons x xs => 1 + pyNodes x + pyNodes xs
  | .dictCons _ v kvs => 1 + pyNodes v + pyNodes kvs
  | _ => 1

instance {ε α : Type} [DecidableEq ε] [DecidableEq α] : DecidableEq (Except ε α)
  | .ok a, .ok b =>
      if h : a = b then .isTrue (by rw [h])
      else .isFalse (fun hc => h (Except.ok.inj hc))
  | .error a, .error b =>
      if h : a = b then .isTrue (by rw [h])
      else .isFalse (fun hc => h (Except.error.inj hc))
  | .ok _, .error _ => .isFalse (fun hc => Except.noConfusion hc)
  | .error _, .ok _ => .isFalse (fun hc => Except.noConfusion hc)

/-- The Python exception kinds the source can raise or catch. -/
inductive PyErr where
  | valueError
  | typeError
  | keyError
  | attributeError
  deriving DecidableEq, Repr

/-- Python truthiness `bool(x)` on a `PyVal`: total, never raises. -/
def pyBool : PyVal → Bool
  | .none => false
  | .bool b => b
  | .int n => n != 0
  | .str s => s ≠ ""
  | .listNil => false
  | .listCons _ _ => true
  | .dictNil => false
  | .dictCons _ _ _ => true

/-- The numeric value of an `int` or `bool` (a Python `bool` is an `int`:
`True == 1`, `False == 0`). -/
def pyNum? : PyVal → Option Int
  | .int n => some n
  | .bool b => some (if b then 1 else 0)
  | _ => Option.none

/-- `isinstance(x, int)` in Python: true for both `int` and `bool` values
(`bool` is a subclass of `int`). -/
def pyIsInstInt : PyVal → Bool
  | .int _ => true
  | .bool _ => true
  | _ => false

/-- `isinstance(x, bool)` in Python. -/
def pyIsInstBool : PyVal → Bool
  | .bool _ => true
  | _ => false

/-- Numeric value of a decimal digit character, if it is one. -/
def digitVal? (c : Char) : Option Nat :=
  if c.isDigit then some (c.toNat - '0'.toNat) else Option.none

/-- Value of a non-empty all-digit character list, else `none`. -/
def digitsVal? (cs : List Char) : Option Nat :=
  match cs with
  | [] => Option.none
  | _ => cs.foldl
      (fun acc c =>
        match acc, digitVal? c with
        | some a, some d => some (a * 10 + d)
        | _, _ => Option.none)
      (some 0)

/-- Python `int(s)` on a string: optional surrounding spaces, optional
sign, then decimal digits; anything else raises `ValueError`. -/
def pyStrToInt? (s : String) : Option Int :=
  let cs := ((s.toList.dropWhile (· = ' ')).reverse.dropWhile (· = ' ')).reverse
  match cs with
  | '-' :: rest => (digitsVal? rest).map (fun n => -(n : Int))
  | '+' :: rest => (digitsVal? rest).map (fun n => (n : Int))
  | _ => (digitsVal? cs).map (fun n => (n : Int))

/-- Python `int(x)` on a `PyVal`: ints and bools convert, numeric strings
parse (`ValueError` otherwise), every other type raises `TypeError`. -/
def pyInt : PyVal → Except PyErr Int
  | .int n => .ok n
  | .bool b => .ok (if b then 1 else 0)
  | .str s =>
      match pyStrToInt? s with
      | some n => .ok n
      | Option.none => .error .valueError
  | _ => .error .typeError

/-- Python `==` on `PyVal`s, with fuel bounding the recursion depth (the
top-level wrapper passes `pyNodes` of the left value, which always
suffices).  Numbers and booleans compare numerically, strings by content,
lists pointwise, dicts by key-wise lookup independent of entry order;
mixed types are unequal. -/
def pyEqF : Nat → PyVal → PyVal → Bool
  | 0, _, _ => false
  | fuel + 1, a, b =>
      match a, b with
      | .none, .none => true
      | .str x, .str y => x == y
      | .listNil, .listNil => true
      | .listCons x xs, .listCons y ys => pyEqF fuel x y && pyEqF fuel xs ys
      | a, b =>
          match asDict? a, asDict? b with
          | some xs, some ys =>
              xs.length == ys.length
                && xs.all (fun kv =>
                     ys.any (fun kv2 => kv.1 == kv2.1 && pyEqF fuel kv.2 kv2.2))
                && ys.all (fun kv =>
                     xs.any (fun kv2 => kv.1 == kv2.1 && pyEqF fuel kv.2 kv2.2))
          | _, _ =>
              match pyNum? a, pyNum? b with
              | some m, some n => m == n
              | _, _ => false

/-- Python `==` on `PyVal`s (`operator.eq`): total, never raises. -/
def pyEq (a b : PyVal) : Bool := pyEqF (pyNodes a) a b

/-- Python 3 ordering comparison on `PyVal`s, with fuel as in `pyEqF`.
Numbers and booleans compare numerically, strings lexicographically,
lists lexicographically (equal prefixes skipped using `==`); any other
combination (including `None` and dicts) raises `TypeError`. -/
def pyCmpF : Nat → PyVal → PyVal → Except PyErr Ordering
  | 0, _, _ => .error .typeError
  | fuel + 1, a, b =>
      match a, b with
      | .str x, .str y => .ok (compare x y)
      | .listNil, .listNil => .ok .eq
      | .listNil, .listCons _ _ => .ok .lt
      | .listCons _ _, .listNil => .ok .gt
      | .listCons x xs, .listCons y ys =>
          if pyEq x y then pyCmpF fuel xs ys else pyCmpF fuel x y
      | a, b =>
          match pyNum? a, pyNum? b with
          | some m, some n => .ok (compare m n)
          | _, _ => .error .typeError

/-- Python ordering comparison (used by `<`, `<=`, `>`, `>=`). -/
def pyCmp (a b : PyVal) : Except PyErr Ordering := pyCmpF (pyNodes a) a b

/-- One piece of a regular-expression pattern: a literal character or the
`.` wildcard (`dot`), possibly starred. -/
inductive RPiece where
  | once (c : Char) (dot : Bool)
  | star (c : Char) (dot : Bool)
  deriving DecidableEq

/-- Does a piece's atom match a character? -/
def rAtomMatch (c : Char) (dot : Bool) (x : Char) : Bool :=
  dot || c == x

/-- Parse the supported pattern subset into pieces: each character is a
literal (or `.` wildcard), optionally followed by `*`. -/
def parsePieces : List Char → List RPiece
  | [] => []
  | c :: '*' :: rest => .star c (c == '.') :: parsePieces rest
  | c :: rest => .once c (c == '.') :: parsePieces rest

/-- Does the piece list match a prefix of the character list?  Fueled
(classic backtracking matcher); any fuel above `pieces + chars`
suffices. -/
def rMatchF : Nat → List RPiece → List Char → Bool
  | 0, _, _ => false
  | _ + 1, [], _ => true
  | _ + 1, .once _ _ :: _, [] => false
  | fuel + 1, .once c d :: ps, x :: xs => rAtomMatch c d x && rMatchF fuel ps xs
  | fuel + 1, .star _ _ :: ps, [] => rMatchF fuel ps []
  | fuel + 1, .star c d :: ps, x :: xs =>
      rMatchF fuel ps (x :: xs) || (rAtomMatch c d x && rMatchF fuel (.star c d :: ps) xs)

/-- Try to match the pieces starting at each successive position. -/
def rSearchFrom (ps : List RPiece) : List Char → Bool
  | [] => rMatchF (ps.length + 1) ps []
  | x :: xs =>
      rMatchF (ps.length + xs.length + 2) ps (x :: xs) || rSearchFrom ps xs

/-- Model of Python `re.search(pattern, s)` for the supported pattern
subset (optional leading `^` anchor, literal characters, `.` wildcards,
`*` repetitions): true iff the pattern matches at some position of `s`
(only at the start when anchored). -/
def reSearch (pattern s : String) : Bool :=
  match pattern.toList with
  | '^' :: rest => rMatchF (rest.length + s.toList.length + 2) (parsePieces rest) s.toList
  | cs => rSearchFrom (parsePieces cs) s.toList

/-- The `=~` entry of `OPERATOR_MAP`:
`lambda a, b: True if re.search(b, a) else False`.  `re.search` requires
both the pattern and the subject to be strings and raises `TypeError`
otherwise; no string conversion is performed. -/
def regexOp (a b : PyVal) : Except PyErr Bool :=
  match a, b with
  | .str s, .str pattern => .ok (reSearch pattern s)
  | _, _ => .error .typeError

/-- `OPERATOR_MAP`: operator symbol → binary predicate, `none` for a
symbol absent from the table. -/
def OPERATOR_MAP (op : String) : Option (PyVal → PyVal → Except PyErr Bool) :=
  if op == "!=" then some (fun a b => .ok (!pyEq a b))
  else if op == "==" then some (fun a b => .ok (pyEq a b))
  else if op == "=" then some (fun a b => .ok (pyEq a b))
  else if op == "<=" then some (fun a b => (pyCmp a b).map (fun o => o ≠ .gt))
  else if op == "<" then some (fun a b => (pyCmp a b).map (fun o => o = .lt))
  else if op == ">=" then some (fun a b => (pyCmp a b).map (fun o => o ≠ .lt))
  else if op == ">" then some (fun a b => (pyCmp a b).map (fun o => o = .gt))
  else if op == "=~" then some regexOp
  else Option.none

/-- `OPERATOR_MAP[op](a, b)`: looks the symbol up (a missing symbol
raises `KeyError`, as Python dict indexing does) and applies the
predicate. -/
def applyOp (op : String) (a b : PyVal) : Except PyErr Bool :=
  match OPERATOR_MAP op with
  | some f => f a b
  | Option.none => .error .keyError

/-- A path segment: the trivial `This()` segment used by `wrap`, or the
`Index(i)` segment Filter attaches to selected elements. -/
inductive PathSeg where
  | this
  | index (i : Nat)
  deriving DecidableEq, Repr

/-- A context-carrying value (`DatumInContext`): a value, the path segment
that reached it, and optionally the enclosing datum (`base` = context
`None`, `child` = a parent context). -/
inductive Datum where
  | base (value : PyVal) (path : PathSeg)
  | child (value : PyVal) (path : PathSeg) (context : Datum)
  deriving DecidableEq, Repr

/-- The `.value` attribute of a datum. -/
def Datum.value : Datum → PyVal
  | .base v _ => v
  | .child v _ _ => v

/-- Reassignment of the (mutable) `.value` attribute of a datum. -/
def Datum.withValue : Datum → PyVal → Datum
  | .base _ p, v => .base v p
  | .child _ p c, v => .child v p c

/-- An argument that is either a raw value or an already-wrapped datum
(Python functions here accept both). -/
inductive DatumOrVal where
  | raw (v : PyVal)
  | datum (d : Datum)
  deriving DecidableEq, Repr

/-- `DatumInContext.wrap`: idempotent lift into the datum type — an
already-wrapped datum is returned as-is (the same object), a raw value
gets a fresh datum with path `This()` and no context. -/
def DatumInContext.wrap : DatumOrVal → Datum
  | .raw v => .base v .this
  | .datum d => d

/-- An external query node from the traversal engine (`JSONPath`): its
single operation `find` maps a datum to an ordered list of result
datums. -/
structure Query where
  find : Datum → List Datum

/-- A comparand (`Expression.value`): either a nested query (a `JSONPath`
instance) or a plain value. -/
inductive ExprValue where
  | path (q : Query)
  | val (v : PyVal)

/-- The result of a Boolean Expression node's `find`: Expression returns
a list of datums, the combinators may return a plain boolean. -/
inductive ExprResult where
  | matches (ds : List Datum)
  | bool (b : Bool)
  deriving DecidableEq, Repr

/-- Python truthiness of a `find` result: a non-empty result list or the
boolean `true`. -/
def truthy : ExprResult → Bool
  | .matches ds => !ds.isEmpty
  | .bool b => b

/-- The Boolean Expression tree: `Expression` leaves and the
`Negation` / `Conjunction` / `Disjunction` combinators. -/
inductive BoolExpr where
  | expression (target : Query) (op : Option String) (value : ExprValue)
  | negation (e : BoolExpr)
  | conjunction (left right : BoolExpr)
  | disjunction (left right : BoolExpr)

/-- The element loop of `Expression.find`.  `orig` is the wrapped
argument of the enclosing call (comparand queries are resolved against
it, not against the loop element).  The comparand `cv` is threaded as
state, mirroring the mutable Python local `comparedValue`: a query
comparand is replaced by its resolved scalar on the iteration that
resolves it, so later iterations take the value branches.  Returns the
matching datums together with the number of comparand-query resolutions
performed (the count of `comparedValue.find` calls). -/
def exprLoop (op : String) (orig : Datum) : ExprValue → List Datum → Except PyErr (List Datum × Nat)
  | _, [] => .ok ([], 0)
  | .path q, data :: rest =>
      match q.find orig with
      | [] => .ok ([], 1)
      | c :: _ =>
          match applyOp op data.value c.value with
          | .error e => .error e
          | .ok b =>
              match exprLoop op orig (.val c.value) rest with
              | .error e => .error e
              | .ok (tail, n) => .ok ((if b then data :: tail else tail), n + 1)
  | .val cmpv, data :: rest =>
      if pyIsInstInt cmpv then
        match pyInt data.value with
        | .error .valueError => exprLoop op orig (.val cmpv) rest
        | .error e => .error e
        | .ok k =>
            match applyOp op (.int k) cmpv with
            | .error e => .error e
            | .ok b =>
                match exprLoop op orig (.val cmpv) rest with
                | .error e => .error e
                | .ok (tail, n) => .ok ((if b then data :: tail else tail), n)
      else if pyIsInstBool cmpv then
        -- Unreachable: `isinstance(comparedValue, int)` above is already
        -- true for booleans.  Kept to mirror the source's `elif`; Python
        -- `bool(x)` is total, so its ValueError handler could never fire.
        match applyOp op (.bool (pyBool data.value)) cmpv with
        | .error e => .error e
        | .ok b =>
            match exprLoop op orig (.val cmpv) rest with
            | .error e => .error e
            | .ok (tail, n) => .ok ((if b then data :: tail else tail), n)
      else
        match applyOp op data.value cmpv with
        | .error e => .error e
        | .ok b =>
            match exprLoop op orig (.val cmpv) rest with
            | .error e => .error e
            | .ok (tail, n) => .ok ((if b then data :: tail else tail), n)

/-- `find` of a Boolean Expression node, on a raw-or-wrapped argument.
`Expression`: run the target query on the wrapped argument; empty target
results give an empty result; operator `None` gives the target results
themselves; otherwise the element loop compares each result against the
comparand.  `Negation` returns the boolean complement of its child's
truthiness; `Conjunction`/`Disjunction` short-circuit on the left
result's truthiness and otherwise return the right result unchanged. -/
def BoolExpr.find : BoolExpr → DatumOrVal → Except PyErr ExprResult
  | .expression target op value, datum =>
      let targetDatum := target.find (DatumInContext.wrap datum)
      if targetDatum.isEmpty then .ok (.matches [])
      else
        match op with
        | Option.none => .ok (.matches targetDatum)
        | some opStr =>
            match exprLoop opStr (DatumInContext.wrap datum) value targetDatum with
            | .error e => .error e
            | .ok (found, _) => .ok (.matches found)
  | .negation e, datum =>
      match BoolExpr.find e datum with
      | .error err => .error err
      | .ok r => .ok (.bool (!truthy r))
  | .conjunction l r, datum =>
      match BoolExpr.find l datum with
      | .error err => .error err
      | .ok res => if truthy res then BoolExpr.find r datum else .ok (.bool false)
  | .disjunction l r, datum =>
      match BoolExpr.find l datum with
      | .error err => .error err
      | .ok res => if truthy res then .ok (.bool true) else BoolExpr.find r datum

/-- The `Filter` class (named `JFilter` here because Mathlib already
declares `Filter`): wraps an optional Boolean Expression (`None` =
pass-through). -/
structure JFilter where
  expression : Option BoolExpr

/-- The result of `Filter.find`: the unchanged input (expression `None`)
or a list of selected datums. -/
inductive FindRes where
  | passthrough (d : DatumOrVal)
  | results (ds : List Datum)
  deriving DecidableEq, Repr

/-- The selection loop of `Filter.find`: for index `i`, evaluate the
expression on the raw element itself; if truthy, emit a datum wrapping
the element with path `Index(i)` and the processed input datum as
context. -/
def selLoop (e : BoolExpr) (ctx : Datum) : List PyVal → Nat → Except PyErr (List Datum)
  | [], _ => .ok []
  | x :: rest, i =>
      match BoolExpr.find e (.raw x) with
      | .error err => .error err
      | .ok r =>
          match selLoop e ctx rest (i + 1) with
          | .error err => .error err
          | .ok tail =>
              .ok (if truthy r then Datum.child x (.index i) ctx :: tail else tail)

/-- `Filter.find` (here `JFilter.find`), with the state of the caller's argument made explicit:
returns the find result together with what the argument looks like after
the call.  With no expression the input is returned unchanged.
Otherwise the input is wrapped; a dict value is replaced (by assignment
to the wrapped datum's `.value`, which the caller observes when the
input was already wrapped) by the list of its values; a non-list value
then yields no results; a list is filtered by the selection loop. -/
def JFilter.find (f : JFilter) (input : DatumOrVal) : Except PyErr FindRes × DatumOrVal :=
  match f.expression with
  | Option.none => (.ok (.passthrough input), input)
  | some e =>
      let d0 := DatumInContext.wrap input
      let d := match asDict? d0.value with
               | some kvs => d0.withValue (pyListOf (kvs.map (·.2)))
               | Option.none => d0
      let inputAfter := match input with
               | .datum _ => DatumOrVal.datum d
               | .raw v => DatumOrVal.raw v
      match asList? d.value with
      | some xs =>
          (match selLoop e d xs 0 with
           | .ok ds => (.ok (.results ds), inputAfter)
           | .error err => (.error err, inputAfter))
      | Option.none => (.ok (.results []), inputAfter)

/-- An updater argument of `Filter.update`: a callable (modelled as a
function from the element, the collection and the index to the mutated
collection) or a plain replacement value. -/
inductive Updater where
  | val (v : PyVal)
  | callable (f : PyVal → List PyVal → Nat → List PyVal)

/-- The update loop of `Filter.update`, mirroring Python's live list
iteration: at step `i`, stop if `i` is past the current list's length,
else evaluate the expression on element `i` and, if truthy, either call
the callable on `(element, collection, i)` or overwrite position `i`
with the value.  `fuel` bounds the number of iterations (a callable can
grow the list); `none` means the fuel ran out. -/
def updateLoop (e : BoolExpr) (upd : Updater) : Nat → Nat → List PyVal → Except PyErr (Option (List PyVal))
  | fuel, i, cur =>
      if hi : i < cur.length then
        match fuel with
        | 0 => .ok Option.none
        | fuel + 1 =>
            match BoolExpr.find e (.raw (cur.get ⟨i, hi⟩)) with
            | .error err => .error err
            | .ok r =>
                let cur2 := if truthy r then
                    (match upd with
                     | .callable g => g (cur.get ⟨i, hi⟩) cur i
                     | .val v => cur.set i v)
                  else cur
                updateLoop e upd fuel (i + 1) cur2
      else .ok (some cur)

/-- `Filter.update`: only a value of list type is updated (any other value
is returned unchanged); each matching index is mutated by the updater.
With expression `None`, a non-empty list raises `AttributeError`
(`None.find` is called on the first element). -/
def JFilter.update (f : JFilter) (fuel : Nat) (data : PyVal) (upd : Updater) : Except PyErr (Option PyVal) :=
  match f.expression, asList? data with
  | some e, some xs =>
      (match updateLoop e upd fuel 0 xs with
       | .error err => .error err
       | .ok Option.none => .ok Option.none
       | .ok (some ys) => .ok (some (pyListOf ys)))
  | Option.none, some xs =>
      if xs.isEmpty then .ok (some data) else .error .attributeError
  | _, _ => .ok (some data)

/-- A context-independent external query returning fixed results (used to
instantiate `Query`, which the traversal engine supplies, in concrete
evaluations). -/
def constQuery (ds : List Datum) : Query := ⟨fun _ => ds⟩

/-- An external query that yields its input datum itself when the
underlying value is truthy, and nothing otherwise. -/
def truthyQuery : Query := ⟨fun d => if pyBool (Datum.value d) then [d] else []⟩

/-- An external query extracting the value of key `k` of a dict value (a
one-field instance of the engine's field query). -/
def fieldQuery (k : String) : Query :=
  ⟨fun d =>
    match asDict? (Datum.value d) with
    | some kvs =>
        (match kvs.lookup k with
         | some v => [Datum.child v .this d]
         | Option.none => [])
    | Option.none => []⟩

/-- The boolean of an `ok` result, `false` on an error (used to state
match sets when the operator application is known not to raise). -/
def okOr : Except PyErr Bool → Bool
  | .ok b => b
  | .error _ => false

/-- Reference form of `Filter.update` with a plain (non-callable) value:
overwrite each element whose expression result is truthy, keep the
others, propagating expression errors. -/
def overwriteMatches (e : BoolExpr) (v : PyVal) : List PyVal → Except PyErr (List PyVal)
  | [] => .ok []
  | x :: rest =>
      match BoolExpr.find e (.raw x) with
      | .error err => .error err
      | .ok r =>
          match overwriteMatches e v rest with
          | .error err => .error err
          | .ok tail => .ok ((if truthy r then v else x) :: tail)

/-- The `a > 1` predicate of the update scenario: field `a` of the
element, operator `>`, literal comparand `1`. -/
def exGT : BoolExpr := .expression (fieldQuery "a") (some ">") (.val (.int 1))

/-- The scenario collection `[{"a":1},{"a":2},{"a":3}]`. -/
def exList : PyVal :=
  pyListOf [pyDictOf [("a", .int 1)], pyDictOf [("a", .int 2)], pyDictOf [("a", .int 3)]]

/-! ## Basic lemmas -/

lemma asList?_pyListOf (xs : List PyVal) : asList? (pyListOf xs) = some xs := by
  induction xs with
  | nil => rfl
  | cons x xs ih => simp [pyListOf, asList?, ih]

lemma asDict?_pyListOf (xs : List PyVal) : asDict? (pyListOf xs) = Option.none := by
  cases xs <;> rfl

lemma asDict?_pyDictOf (kvs : List (String × PyVal)) : asDict? (pyDictOf kvs) = some kvs := by
  induction kvs with
  | nil => rfl
  | cons kv kvs ih => cases kv; simp [pyDictOf, asDict?, ih]

lemma asList?_pyDictOf (kvs : List (String × PyVal)) : asList? (pyDictOf kvs) = Option.none := by
  cases kvs <;> rfl

/-- Evaluation of the selection loop when the expression's per-element
results are given by `g`. -/
lemma selLoop_eq (e : BoolExpr) (g : PyVal → ExprResult) (ctx : Datum) :
    ∀ (xs : List PyVal) (i : Nat), (∀ x ∈ xs, BoolExpr.find e (.raw x) = .ok (g x)) →
      selLoop e ctx xs i =
        .ok ((List.enumFrom i xs).filterMap
          (fun p => if truthy (g p.2) then some (Datum.child p.2 (.index p.1) ctx)
                    else Option.none)) := by
  intro xs
  induction xs with
  | nil => intro i _; rfl
  | cons x xs ih =>
      intro i h
      have hx := h x (List.mem_cons_self x xs)
      have ihx := ih (i + 1) (fun y hy => h y (List.mem_cons_of_mem x hy))
      simp only [selLoop, hx, ihx, List.enumFrom, List.filterMap]
      cases truthy (g x) <;> simp

/-- The values of the datums selected by the loop form a sublist of the
element list. -/
lemma selSpec_sublist (g : PyVal → ExprResult) (ctx : Datum) :
    ∀ (xs : List PyVal) (i : Nat),
      (((List.enumFrom i xs).filterMap
        (fun p => if truthy (g p.2) then some (Datum.child p.2 (.index p.1) ctx)
                  else Option.none)).map Datum.value).Sublist xs := by
  intro xs
  induction xs with
  | nil => intro i; simp
  | cons x xs ih =>
      intro i
      simp only [List.enumFrom, List.filterMap]
      cases truthy (g x) with
      | false => exact (ih (i + 1)).cons x
      | true => exact (ih (i + 1)).cons₂ x

/-- C1: on a non-empty list, `Filter(E)` with expression `E` evaluates `E`
on each raw element itself (`g` gives the per-element results), returns
exactly the truthy elements in original order (a sublist, no
deduplication), each wrapped with path segment `Index(i)` of its original
position and with the wrapped original input as parent context, and the
caller's raw argument is unchanged. -/
theorem filter_select_spec
    (e : BoolExpr) (xs : List PyVal) (g : PyVal → ExprResult)
    (hg : ∀ x ∈ xs, BoolExpr.find e (.raw x) = .ok (g x))
    (_hne : xs ≠ []) :
    JFilter.find ⟨some e⟩ (.raw (pyListOf xs)) =
      (.ok (.results ((List.enumFrom 0 xs).filterMap
        (fun p => if truthy (g p.2) then
            some (Datum.child p.2 (.index p.1) (.base (pyListOf xs) .this))
          else Option.none))),
       .raw (pyListOf xs))
    ∧ (((List.enumFrom 0 xs).filterMap
        (fun p => if truthy (g p.2) then
            some (Datum.child p.2 (.index p.1) (.base (pyListOf xs) .this))
          else Option.none)).map Datum.value).Sublist xs := by
  refine ⟨?_, selSpec_sublist g _ xs 0⟩
  unfold JFilter.find
  simp only [DatumInContext.wrap, Datum.value, asDict?_pyListOf, asList?_pyListOf]
  rw [selLoop_eq e g _ xs 0 hg]

/-- Witness for C1 at a concrete input: elements `[1, 0, "x"]` under an
existence-test expression keep the truthy elements `1` and `"x"` at index
paths 0 and 2. -/
theorem filter_select_spec_witness :
    JFilter.find ⟨some (.expression truthyQuery Option.none (.val .none))⟩
        (.raw (pyListOf [.int 1, .int 0, .str "x"])) =
      (.ok (.results
        [Datum.child (.int 1) (.index 0) (.base (pyListOf [.int 1, .int 0, .str "x"]) .this),
         Datum.child (.str "x") (.index 2) (.base (pyListOf [.int 1, .int 0, .str "x"]) .this)]),
       .raw (pyListOf [.int 1, .int 0, .str "x"])) := by
  have h := (filter_select_spec (.expression truthyQuery Option.none (.val .none))
      [.int 1, .int 0, .str "x"]
      (fun x => if pyBool x then ExprResult.matches [.base x .this] else .matches [])
      (by decide) (by decide)).1
  exact h.trans (by decide)

/-- With a plain-value comparand the element loop performs no
comparand-query resolutions. -/
lemma exprLoop_val_count (opStr : String) (orig : Datum) (v : PyVal) :
    ∀ (td found : List Datum) (n : Nat),
      exprLoop opStr orig (.val v) td = .ok (found, n) → n = 0 := by
  intro td
  induction td with
  | nil =>
      intro found n h
      simp only [exprLoop] at h
      cases h
      rfl
  | cons d rest ih =>
      intro found n h
      simp only [exprLoop] at h
      cases hII : pyIsInstInt v with
      | true =>
          simp only [hII, if_true] at h
          cases hpi : pyInt (Datum.value d) with
          | error err =>
              cases err <;> simp only [hpi] at h
              · exact ih _ _ h
              · exact Except.noConfusion h
              · exact Except.noConfusion h
              · exact Except.noConfusion h
          | ok k =>
              simp only [hpi] at h
              cases hao : applyOp opStr (.int k) v with
              | error e =>
                  simp only [hao] at h
                  exact Except.noConfusion h
              | ok b =>
                  simp only [hao] at h
                  cases hrec : exprLoop opStr orig (.val v) rest with
                  | error e =>
                      simp only [hrec] at h
                      exact Except.noConfusion h
                  | ok p =>
                      obtain ⟨tail, m⟩ := p
                      simp only [hrec] at h
                      cases h
                      exact ih _ _ hrec
      | false =>
          simp only [hII, Bool.false_eq_true, if_false] at h
          cases hIB : pyIsInstBool v with
          | true =>
              simp only [hIB, if_true] at h
              cases hao : applyOp opStr (.bool (pyBool (Datum.value d))) v with
              | error e =>
                  simp only [hao] at h
                  exact Except.noConfusion h
              | ok b =>
                  simp only [hao] at h
                  cases hrec : exprLoop opStr orig (.val v) rest with
                  | error e =>
                      simp only [hrec] at h
                      exact Except.noConfusion h
                  | ok p =>
                      obtain ⟨tail, m⟩ := p
                      simp only [hrec] at h
                      cases h
                      exact ih _ _ hrec
          | false =>
              simp only [hIB, Bool.false_eq_true, if_false] at h
              cases hao : applyOp opStr (Datum.value d) v with
              | error e =>
                  simp only [hao] at h
                  exact Except.noConfusion h
              | ok b =>
                  simp only [hao] at h
                  cases hrec : exprLoop opStr orig (.val v) rest with
                  | error e =>
                      simp only [hrec] at h
                      exact Except.noConfusion h
                  | ok p =>
                      obtain ⟨tail, m⟩ := p
                      simp only [hrec] at h
                      cases h
                      exact ih _ _ hrec

/-- C2: with a nested-query comparand and a target yielding at least one
result, (1) a successful element loop performs exactly one comparand
resolution (the scalar is cached and reused, never re-resolved per
element); (2) the evaluation depends on the comparand query only through
its results on the original wrapped context (never a per-element
context); (3) if that resolution yields no results the whole evaluation
returns an empty result set. -/
theorem expr_comparand_query_once
    (target : Query) (opStr : String) (q : Query) (datum : DatumOrVal)
    (hne : target.find (DatumInContext.wrap datum) ≠ []) :
    (∀ (found : List Datum) (n : Nat),
        exprLoop opStr (DatumInContext.wrap datum) (.path q)
            (target.find (DatumInContext.wrap datum)) = .ok (found, n) → n = 1)
    ∧ (∀ q2 : Query,
        q2.find (DatumInContext.wrap datum) = q.find (DatumInContext.wrap datum) →
        BoolExpr.find (.expression target (some opStr) (.path q2)) datum =
          BoolExpr.find (.expression target (some opStr) (.path q)) datum)
    ∧ (q.find (DatumInContext.wrap datum) = [] →
        BoolExpr.find (.expression target (some opStr) (.path q)) datum =
          .ok (.matches [])) := by
  refine ⟨?_, ?_, ?_⟩
  · intro found n h
    cases htd : target.find (DatumInContext.wrap datum) with
    | nil => exact absurd htd hne
    | cons d rest =>
        rw [htd] at h
        simp only [exprLoop] at h
        cases hq : q.find (DatumInContext.wrap datum) with
        | nil =>
            simp only [hq] at h
            cases h
            rfl
        | cons c cs =>
            simp only [hq] at h
            cases hao : applyOp opStr (Datum.value d) (Datum.value c) with
            | error e =>
                simp only [hao] at h
                exact Except.noConfusion h
            | ok b =>
                simp only [hao] at h
                cases hrec : exprLoop opStr (DatumInContext.wrap datum) (.val (Datum.value c)) rest with
                | error e =>
                    simp only [hrec] at h
                    exact Except.noConfusion h
                | ok p =>
                    obtain ⟨tail, m⟩ := p
                    simp only [hrec] at h
                    cases h
                    rw [exprLoop_val_count opStr (DatumInContext.wrap datum) (Datum.value c) rest tail m hrec]
  · intro q2 hq2
    have hloop : exprLoop opStr (DatumInContext.wrap datum) (.path q2)
        (target.find (DatumInContext.wrap datum)) =
        exprLoop opStr (DatumInContext.wrap datum) (.path q)
          (target.find (DatumInContext.wrap datum)) := by
      cases target.find (DatumInContext.wrap datum) with
      | nil => rfl
      | cons d rest => simp only [exprLoop, hq2]
    simp only [BoolExpr.find, hloop]
  · intro hq
    cases htd : target.find (DatumInContext.wrap datum) with
    | nil => exact absurd htd hne
    | cons d rest =>
        simp only [BoolExpr.find, htd, List.isEmpty_cons, exprLoop, hq]
        split <;> rfl

/-- Witness for C2: a two-result target is non-empty, and a comparand
query resolving to nothing short-circuits the whole evaluation to an
empty match set. -/
theorem expr_comparand_query_once_witness :
    (constQuery [.base (.int 1) .this, .base (.int 2) .this]).find
        (DatumInContext.wrap (.raw .none)) ≠ []
    ∧ BoolExpr.find
        (.expression (constQuery [.base (.int 1) .this, .base (.int 2) .this])
          (some "==") (.path (constQuery []))) (.raw .none) = .ok (.matches []) :=
  ⟨by decide,
   (expr_comparand_query_once (constQuery [.base (.int 1) .this, .base (.int 2) .this])
      "==" (constQuery []) (.raw .none) (by decide)).2.2 (by decide)⟩

/-- `int(x)` raises only `ValueError` or `TypeError`. -/
lemma pyInt_not_key_attr (v : PyVal) :
    pyInt v ≠ .error .keyError ∧ pyInt v ≠ .error .attributeError := by
  cases v <;> simp only [pyInt] <;>
    first
      | exact ⟨fun h => Except.noConfusion h, fun h => Except.noConfusion h⟩
      | constructor <;> (intro h; simp at h)
      | (rename_i s
         cases pyStrToInt? s <;> constructor <;> (intro h; simp at h))

/-- Evaluation of the element loop for a comparand that is a Python
`int` instance (a literal integer or boolean), when no element's
coercion raises `TypeError` and the operator cannot fail on integers:
every element is `int`-coerced, elements failing coercion (with
`ValueError`) are dropped, the rest are kept iff the operator accepts
the coerced value, order preserved, no comparand resolutions. -/
lemma exprLoop_int_comparand (opStr : String) (orig : Datum) (cmpv : PyVal)
    (hcv : pyIsInstInt cmpv = true)
    (hop : ∀ n : Int, ∃ c, applyOp opStr (.int n) cmpv = .ok c) :
    ∀ td : List Datum, (∀ d ∈ td, pyInt (Datum.value d) ≠ .error .typeError) →
      exprLoop opStr orig (.val cmpv) td =
        .ok (td.filter
          (fun d => match pyInt (Datum.value d) with
                    | .ok n => okOr (applyOp opStr (.int n) cmpv)
                    | _ => false), 0) := by
  intro td
  induction td with
  | nil => intro _; rfl
  | cons d rest ih =>
      intro h
      have hd := h d (List.mem_cons_self d rest)
      have ihr := ih (fun y hy => h y (List.mem_cons_of_mem d hy))
      simp only [exprLoop, hcv, if_true]
      cases hpi : pyInt (Datum.value d) with
      | error err =>
          cases err with
          | valueError =>
              rw [ihr, List.filter_cons]
              simp [hpi]
          | typeError => exact absurd hpi hd
          | keyError => exact absurd hpi (pyInt_not_key_attr (Datum.value d)).1
          | attributeError => exact absurd hpi (pyInt_not_key_attr (Datum.value d)).2
      | ok k =>
          obtain ⟨c, hc⟩ := hop k
          simp only [hc, ihr, List.filter_cons, hpi, okOr]

/-- C3 (amended): with a literal integer comparand (and an operator that
is total on integers), every element's value is coerced with `int()`
before the operator is applied; elements whose coercion fails with
`ValueError` are silently excluded and evaluation continues (coercion
failures raising `TypeError` are excluded by hypothesis: they would
propagate as exceptions). -/
theorem expr_int_comparand_coerces
    (target : Query) (k : Int) (opStr : String) (datum : DatumOrVal)
    (hop : ∀ n : Int, ∃ c, applyOp opStr (.int n) (.int k) = .ok c)
    (h : ∀ d ∈ target.find (DatumInContext.wrap datum),
        pyInt (Datum.value d) ≠ .error .typeError) :
    BoolExpr.find (.expression target (some opStr) (.val (.int k))) datum =
      .ok (.matches ((target.find (DatumInContext.wrap datum)).filter
        (fun d => match pyInt (Datum.value d) with
                  | .ok n => okOr (applyOp opStr (.int n) (.int k))
                  | _ => false))) := by
  cases htd : target.find (DatumInContext.wrap datum) with
  | nil => simp [BoolExpr.find, htd]
  | cons d rest =>
      have hloop := exprLoop_int_comparand opStr (DatumInContext.wrap datum) (.int k)
        rfl hop (d :: rest) (htd ▸ h)
      simp [BoolExpr.find, htd, hloop]

/-- Counterexample to C3 as stated: (a) with a nested-query comparand
resolving to the integer 5, the element `"5"` handled in the resolving
iteration is compared uncoerced and does not match, although its
coercion would succeed and make it match; (b) an element `None` makes
the evaluation raise `TypeError` instead of silently excluding the
element. -/
theorem expr_int_coercion_counterexample :
    BoolExpr.find (.expression (constQuery [.base (.str "5") .this]) (some "==")
        (.path (constQuery [.base (.int 5) .this]))) (.raw .none) = .ok (.matches [])
    ∧ pyInt (.str "5") = .ok 5
    ∧ pyEq (.int 5) (.int 5) = true
    ∧ BoolExpr.find (.expression (constQuery [.base .none .this]) (some "==")
        (.val (.int 5))) (.raw .none) = .error .typeError := by decide

/-- Witness for C3 (amended), the spec's coercion-skip law: comparand `5`
and elements `["5", "x", 5]` under `==` match exactly positions 0 and 2
(`"x"` is skipped, not an error). -/
theorem expr_int_comparand_coerces_witness :
    BoolExpr.find
        (.expression
          (constQuery [.base (.str "5") .this, .base (.str "x") .this, .base (.int 5) .this])
          (some "==") (.val (.int 5))) (.raw .none) =
      .ok (.matches [.base (.str "5") .this, .base (.int 5) .this]) := by
  have h := expr_int_comparand_coerces
      (constQuery [.base (.str "5") .this, .base (.str "x") .this, .base (.int 5) .this])
      5 "==" (.raw .none)
      (fun n => ⟨pyEq (.int n) (.int 5), rfl⟩) (by decide)
  exact h.trans (by decide)

/-- C8 (amended): a boolean comparand is a Python `int` instance, so the
integer-coercion branch applies (the boolean-coercion branch is
unreachable): each element's value is coerced with `int()`, elements
failing with `ValueError` are skipped, and the comparand participates in
the comparison as a boolean (numerically 0/1). -/
theorem expr_bool_comparand_int_branch
    (target : Query) (b : Bool) (opStr : String) (datum : DatumOrVal)
    (hop : ∀ n : Int, ∃ c, applyOp opStr (.int n) (.bool b) = .ok c)
    (h : ∀ d ∈ target.find (DatumInContext.wrap datum),
        pyInt (Datum.value d) ≠ .error .typeError) :
    BoolExpr.find (.expression target (some opStr) (.val (.bool b))) datum =
      .ok (.matches ((target.find (DatumInContext.wrap datum)).filter
        (fun d => match pyInt (Datum.value d) with
                  | .ok n => okOr (applyOp opStr (.int n) (.bool b))
                  | _ => false))) := by
  cases htd : target.find (DatumInContext.wrap datum) with
  | nil => simp [BoolExpr.find, htd]
  | cons d rest =>
      have hloop := exprLoop_int_comparand opStr (DatumInContext.wrap datum) (.bool b)
        rfl hop (d :: rest) (htd ▸ h)
      simp [BoolExpr.find, htd, hloop]

/-- Counterexample to C8 as stated: with comparand `True` the element
`"yes"` is not boolean-coerced (which would succeed, `bool("yes")` being
`True`, and match); it is `int`-coerced, which raises `ValueError`, so
the element is skipped and nothing matches. -/
theorem expr_bool_comparand_counterexample :
    BoolExpr.find (.expression (constQuery [.base (.str "yes") .this]) (some "==")
        (.val (.bool true))) (.raw .none) = .ok (.matches [])
    ∧ pyBool (.str "yes") = true
    ∧ pyEq (.bool true) (.bool true) = true := by decide

/-- Witness for C8 (amended): comparand `True` over elements
`[1, 2, "x"]` under `==` matches exactly the element `1` (`1 == True`
numerically; `2` does not match; `"x"` fails `int()` and is skipped). -/
theorem expr_bool_comparand_int_branch_witness :
    BoolExpr.find
        (.expression
          (constQuery [.base (.int 1) .this, .base (.int 2) .this, .base (.str "x") .this])
          (some "==") (.val (.bool true))) (.raw .none) =
      .ok (.matches [.base (.int 1) .this]) := by
  have h := expr_bool_comparand_int_branch
      (constQuery [.base (.int 1) .this, .base (.int 2) .this, .base (.str "x") .this])
      true "==" (.raw .none)
      (fun n => ⟨pyEq (.int n) (.bool true), rfl⟩) (by decide)
  exact h.trans (by decide)

lemma get_append_len (pre : List PyVal) (x : PyVal) (rest : List PyVal)
    (h : pre.length < (pre ++ x :: rest).length) :
    (pre ++ x :: rest).get ⟨pre.length, h⟩ = x := by
  induction pre with
  | nil => rfl
  | cons p ps ih => exact ih (by simp)

lemma set_append_len (pre : List PyVal) (x v : PyVal) (rest : List PyVal) :
    (pre ++ x :: rest).set pre.length v = pre ++ v :: rest := by
  induction pre with
  | nil => rfl
  | cons p ps ih => simp [List.set, ih]

/-- The update loop with a plain replacement value, started at the end of
an already-processed prefix, overwrites exactly the matching elements of
the remainder (stopping without effect once the index passes the end). -/
lemma updateLoop_val (e : BoolExpr) (v : PyVal) :
    ∀ (rest pre : List PyVal) (fuel : Nat), rest.length ≤ fuel →
      updateLoop e (.val v) fuel pre.length (pre ++ rest) =
        (match overwriteMatches e v rest with
         | .ok tail => .ok (some (pre ++ tail))
         | .error err => .error err) := by
  intro rest
  induction rest with
  | nil =>
      intro pre fuel _
      rw [updateLoop]
      simp [overwriteMatches]
  | cons x rest ih =>
      intro pre fuel hf
      cases fuel with
      | zero => exact absurd hf (by simp)
      | succ f =>
          have hlt : pre.length < (pre ++ x :: rest).length := by simp
          rw [updateLoop, dif_pos hlt, get_append_len pre x rest hlt]
          cases hfx : BoolExpr.find e (.raw x) with
          | error err => simp [overwriteMatches, hfx]
          | ok r =>
              simp only [overwriteMatches, hfx]
              have hstep :
                  (if truthy r then
                     (match Updater.val v with
                      | .callable g => g x (pre ++ x :: rest) pre.length
                      | .val w => (pre ++ x :: rest).set pre.length w)
                   else pre ++ x :: rest) =
                    pre ++ (if truthy r then v else x) :: rest := by
                cases truthy r <;> simp [set_append_len]
              rw [hstep]
              have hres := ih (pre ++ [if truthy r then v else x]) f (Nat.le_of_succ_le_succ hf)
              rw [List.append_assoc] at hres
              simp only [List.singleton_append] at hres
              rw [show ((pre ++ [if truthy r = true then v else x]).length) = pre.length + 1 by simp] at hres
              rw [hres]
              cases hom : overwriteMatches e v rest <;> simp

/-- C4: `Filter.update` (1) passes any non-list collection through
unchanged; (2) on a list with a plain value updater, replaces exactly
the elements whose expression result is truthy by the value, keeping the
others, and returns the mutated collection; (3) on a matching index `i`
a callable updater is invoked with `(collection[i], collection, i)` and
its mutation becomes the loop's new collection state. -/
theorem filter_update_spec :
    (∀ (f : JFilter) (fuel : Nat) (upd : Updater) (v : PyVal),
        asList? v = Option.none → JFilter.update f fuel v upd = .ok (some v))
    ∧ (∀ (e : BoolExpr) (xs : List PyVal) (v : PyVal) (fuel : Nat),
        xs.length ≤ fuel →
        JFilter.update ⟨some e⟩ fuel (pyListOf xs) (.val v) =
          (match overwriteMatches e v xs with
           | .ok ys => .ok (some (pyListOf ys))
           | .error err => .error err))
    ∧ (∀ (e : BoolExpr) (g : PyVal → List PyVal → Nat → List PyVal) (fuel i : Nat)
        (cur : List PyVal) (hi : i < cur.length) (r : ExprResult),
        BoolExpr.find e (.raw (cur.get ⟨i, hi⟩)) = .ok r → truthy r = true →
        updateLoop e (.callable g) (fuel + 1) i cur =
          updateLoop e (.callable g) fuel (i + 1) (g (cur.get ⟨i, hi⟩) cur i)) := by
  refine ⟨?_, ?_, ?_⟩
  · intro f fuel upd v h
    obtain ⟨oe⟩ := f
    cases oe <;> simp [JFilter.update, h]
  · intro e xs v fuel hf
    have h := updateLoop_val e v xs [] fuel hf
    simp only [List.nil_append, List.length_nil] at h
    simp only [JFilter.update, asList?_pyListOf, h]
    cases overwriteMatches e v xs <;> rfl
  · intro e g fuel i cur hi r hfind ht
    rw [updateLoop, dif_pos hi, hfind]
    simp [ht]

/-- Witness for C4: a scalar collection passes through unchanged, and the
spec's update scenario holds: collection `[{"a":1},{"a":2},{"a":3}]`,
predicate `a > 1`, updater value `{"a":0}` yield
`[{"a":1},{"a":0},{"a":0}]`. -/
theorem filter_update_spec_witness :
    JFilter.update ⟨some exGT⟩ 5 (.int 7) (.val .none) = .ok (some (.int 7))
    ∧ JFilter.update ⟨some exGT⟩ 3 exList (.val (pyDictOf [("a", .int 0)])) =
        .ok (some (pyListOf
          [pyDictOf [("a", .int 1)], pyDictOf [("a", .int 0)], pyDictOf [("a", .int 0)]])) := by
  constructor
  · exact filter_update_spec.1 ⟨some exGT⟩ 5 (.val .none) (.int 7) (by decide)
  · have h := filter_update_spec.2.1 exGT
        [pyDictOf [("a", .int 1)], pyDictOf [("a", .int 2)], pyDictOf [("a", .int 3)]]
        (pyDictOf [("a", .int 0)]) 3 (by decide)
    exact h.trans (by decide)

/-- C5: when the left operand's result is falsy, `Conjunction` returns
boolean `false` (for every right operand — it is not evaluated), and
otherwise returns exactly the right operand's result (whatever its
shape); dually, `Disjunction` returns boolean `true` on a truthy left
and exactly the right result otherwise; truthiness of a sub-result is
"non-empty result list or boolean true". -/
theorem combinators_short_circuit
    (l r : BoolExpr) (datum : DatumOrVal) (res : ExprResult)
    (h : BoolExpr.find l datum = .ok res) :
    (truthy res = false → BoolExpr.find (.conjunction l r) datum = .ok (.bool false))
    ∧ (truthy res = true → BoolExpr.find (.conjunction l r) datum = BoolExpr.find r datum)
    ∧ (truthy res = true → BoolExpr.find (.disjunction l r) datum = .ok (.bool true))
    ∧ (truthy res = false → BoolExpr.find (.disjunction l r) datum = BoolExpr.find r datum)
    ∧ (∀ ds : List Datum, truthy (.matches ds) = !ds.isEmpty)
    ∧ (∀ b : Bool, truthy (.bool b) = b) := by
  refine ⟨?_, ?_, ?_, ?_, fun _ => rfl, fun _ => rfl⟩ <;>
    (intro ht; simp [BoolExpr.find, h, ht])

/-- Witness for C5: an empty-result (falsy) left operand makes a
conjunction boolean `false`; a truthy left operand makes a disjunction
boolean `true`. -/
theorem combinators_short_circuit_witness :
    BoolExpr.find
        (.conjunction (.expression (constQuery []) Option.none (.val .none))
          (.expression (constQuery []) Option.none (.val .none))) (.raw .none) =
      .ok (.bool false)
    ∧ BoolExpr.find
        (.disjunction (.expression (constQuery [.base (.int 1) .this]) Option.none (.val .none))
          (.expression (constQuery []) Option.none (.val .none))) (.raw .none) =
      .ok (.bool true) :=
  ⟨(combinators_short_circuit (.expression (constQuery []) Option.none (.val .none))
      (.expression (constQuery []) Option.none (.val .none)) (.raw .none)
      (.matches []) (by decide)).1 (by decide),
   (combinators_short_circuit
      (.expression (constQuery [.base (.int 1) .this]) Option.none (.val .none))
      (.expression (constQuery []) Option.none (.val .none)) (.raw .none)
      (.matches [.base (.int 1) .this]) (by decide)).2.2.1 (by decide)⟩

/-- C6: a filter with an expression treats a mapping input exactly as the
list of its values in entry order (keys discarded), and yields an empty
result set, without error, on a value that is neither a list nor a
mapping. -/
theorem filter_dict_and_scalar :
    (∀ (e : BoolExpr) (kvs : List (String × PyVal)),
        (JFilter.find ⟨some e⟩ (.raw (pyDictOf kvs))).1 =
          (JFilter.find ⟨some e⟩ (.raw (pyListOf (kvs.map (·.2))))).1)
    ∧ (∀ (e : BoolExpr) (v : PyVal),
        asList? v = Option.none → asDict? v = Option.none →
        (JFilter.find ⟨some e⟩ (.raw v)).1 = .ok (.results [])) := by
  constructor
  · intro e kvs
    simp [JFilter.find, DatumInContext.wrap, Datum.value, Datum.withValue,
      asDict?_pyDictOf, asDict?_pyListOf, asList?_pyListOf]
    cases selLoop e (Datum.base (pyListOf (List.map (fun x => x.2) kvs)) PathSeg.this)
        (List.map (fun x => x.2) kvs) 0 <;> rfl
  · intro e v h1 h2
    simp [JFilter.find, DatumInContext.wrap, Datum.value, h1, h2]

/-- Witness for C6: a two-entry mapping filters exactly as its value list,
and a string input yields an empty result set. -/
theorem filter_dict_and_scalar_witness :
    (JFilter.find ⟨some exGT⟩
        (.raw (pyDictOf [("k1", pyDictOf [("a", .int 5)]), ("k2", pyDictOf [("a", .int 0)])]))).1 =
      (JFilter.find ⟨some exGT⟩
        (.raw (pyListOf [pyDictOf [("a", .int 5)], pyDictOf [("a", .int 0)]]))).1
    ∧ (JFilter.find ⟨some exGT⟩ (.raw (.str "abc"))).1 = .ok (.results []) :=
  ⟨(filter_dict_and_scalar.1 exGT
      [("k1", pyDictOf [("a", .int 5)]), ("k2", pyDictOf [("a", .int 0)])]).trans (by decide),
   filter_dict_and_scalar.2 exGT (.str "abc") (by decide) (by decide)⟩

/-- Counterexample to C7 as stated: `Filter.find` on an already-wrapped
datum whose value is a mapping reassigns the datum's `.value` to the
list of the mapping's values — the caller's context-carrying value is
mutated. -/
theorem filter_find_mutates_wrapped_dict :
    (JFilter.find ⟨some exGT⟩ (.datum (.base (pyDictOf [("k", .int 3)]) .this))).2 =
      .datum (.base (pyListOf [.int 3]) .this)
    ∧ DatumOrVal.datum (.base (pyListOf [.int 3]) .this) ≠
        .datum (.base (pyDictOf [("k", .int 3)]) .this) := by decide

/-- C7 (amended): Boolean Expression `find` operations are pure functions
(they are modelled as such; the source performs no assignment in them),
and `Filter.find` leaves its argument unchanged in every case except the
one the counterexample exhibits: a raw argument is never mutated, and an
already-wrapped argument is unchanged whenever its value is not a
mapping. -/
theorem filter_find_pure_except_wrapped_dict :
    (∀ (f : JFilter) (v : PyVal), (JFilter.find f (.raw v)).2 = .raw v)
    ∧ (∀ (f : JFilter) (d : Datum), asDict? (Datum.value d) = Option.none →
        (JFilter.find f (.datum d)).2 = .datum d) := by
  constructor
  · intro f v
    obtain ⟨oe⟩ := f
    cases oe with
    | none => rfl
    | some e =>
        simp only [JFilter.find, DatumInContext.wrap, Datum.value]
        cases hd : asDict? v with
        | none =>
            cases hl : asList? v with
            | none => simp [hd, hl]
            | some xs =>
                simp only [hd, hl]
                cases selLoop e (.base v .this) xs 0 <;> rfl
        | some kvs =>
            simp only [hd, Datum.withValue, asList?_pyListOf]
            cases selLoop e (.base (pyListOf (kvs.map (·.2))) .this) (kvs.map (·.2)) 0 <;> rfl
  · intro f d hd
    obtain ⟨oe⟩ := f
    cases oe with
    | none => rfl
    | some e =>
        simp only [JFilter.find, DatumInContext.wrap, hd]
        cases hl : asList? (Datum.value d) with
        | none => simp [hl]
        | some xs =>
            simp only [hl]
            cases selLoop e d xs 0 <;> rfl

/-- Witness for C7 (amended): a raw mapping argument and a wrapped
list-valued datum are both returned unchanged. -/
theorem filter_find_pure_witness :
    (JFilter.find ⟨some exGT⟩ (.raw (pyDictOf [("k", .int 3)]))).2 =
      .raw (pyDictOf [("k", .int 3)])
    ∧ (JFilter.find ⟨some exGT⟩ (.datum (.base (pyListOf [.int 3]) .this))).2 =
        .datum (.base (pyListOf [.int 3]) .this) :=
  ⟨filter_find_pure_except_wrapped_dict.1 ⟨some exGT⟩ (pyDictOf [("k", .int 3)]),
   filter_find_pure_except_wrapped_dict.2 ⟨some exGT⟩ (.base (pyListOf [.int 3]) .this)
     (by decide)⟩

lemma applyOp_regex_str (s p : String) :
    applyOp "=~" (.str s) (.str p) = .ok (reSearch p s) := rfl

/-- The element loop under `=~` with a string pattern, when every element
value is a string: an element is kept iff the pattern's search matches
its string, order preserved, no resolutions. -/
lemma exprLoop_regex (orig : Datum) (pat : String) :
    ∀ td : List Datum, (∀ d ∈ td, ∃ s, Datum.value d = .str s) →
      exprLoop "=~" orig (.val (.str pat)) td =
        .ok (td.filter (fun d => match Datum.value d with
                                 | .str s => reSearch pat s
                                 | _ => false), 0) := by
  intro td
  induction td with
  | nil => intro _; rfl
  | cons d rest ih =>
      intro h
      obtain ⟨s, hs⟩ := h d (List.mem_cons_self d rest)
      have ihr := ih (fun y hy => h y (List.mem_cons_of_mem d hy))
      simp only [exprLoop, hs, pyIsInstInt, pyIsInstBool, Bool.false_eq_true, if_false,
        applyOp_regex_str, ihr, List.filter_cons]

/-- C9 (amended): under `=~` with a string pattern, when every target
element's value is a string, the matched elements are exactly those whose
string the pattern's search matches anywhere (start-anchored when the
pattern begins with `^`); no string conversion of the left operand is
performed — a non-string element value raises `TypeError` instead. -/
theorem expr_regex_matches_strings
    (target : Query) (pat : String) (datum : DatumOrVal)
    (h : ∀ d ∈ target.find (DatumInContext.wrap datum), ∃ s, Datum.value d = .str s) :
    BoolExpr.find (.expression target (some "=~") (.val (.str pat))) datum =
      .ok (.matches ((target.find (DatumInContext.wrap datum)).filter
        (fun d => match Datum.value d with
                  | .str s => reSearch pat s
                  | _ => false))) := by
  cases htd : target.find (DatumInContext.wrap datum) with
  | nil => simp [BoolExpr.find, htd]
  | cons d rest =>
      have hloop := exprLoop_regex (DatumInContext.wrap datum) pat (d :: rest) (htd ▸ h)
      simp [BoolExpr.find, htd, hloop]

/-- Counterexample to C9 as stated: the element `5`, whose string form
`"5"` the pattern `"5"` matches, does not match — evaluation raises
`TypeError` because `re.search` rejects a non-string left operand. -/
theorem expr_regex_counterexample :
    BoolExpr.find (.expression (constQuery [.base (.int 5) .this]) (some "=~")
        (.val (.str "5"))) (.raw .none) = .error .typeError
    ∧ reSearch "5" "5" = true := by decide

/-- Witness for C9 (amended), the spec's regex law: pattern `"^a"` over
string elements `["abc", "b", "xa"]` matches exactly `"abc"` (the
start-anchored search). -/
theorem expr_regex_matches_strings_witness :
    BoolExpr.find
        (.expression
          (constQuery [.base (.str "abc") .this, .base (.str "b") .this, .base (.str "xa") .this])
          (some "=~") (.val (.str "^a"))) (.raw .none) =
      .ok (.matches [.base (.str "abc") .this]) := by
  have h := expr_regex_matches_strings
      (constQuery [.base (.str "abc") .this, .base (.str "b") .this, .base (.str "xa") .this])
      "^a" (.raw .none) (by intro d hd; fin_cases hd <;> exact ⟨_, rfl⟩)
  exact h.trans (by decide)

/-- C10: with an integer-or-boolean comparand, an element whose `int()`
conversion raises `ValueError` is silently skipped (the loop continues
with the remaining elements as if the element were absent), while an
element whose conversion raises `TypeError` makes the whole evaluation
propagate that error. -/
theorem exprLoop_int_error_modes :
    (∀ (opStr : String) (orig : Datum) (cmpv : PyVal) (d : Datum) (rest : List Datum),
        pyIsInstInt cmpv = true → pyInt (Datum.value d) = .error .valueError →
        exprLoop opStr orig (.val cmpv) (d :: rest) = exprLoop opStr orig (.val cmpv) rest)
    ∧ (∀ (opStr : String) (orig : Datum) (cmpv : PyVal) (d : Datum) (rest : List Datum),
        pyIsInstInt cmpv = true → pyInt (Datum.value d) = .error .typeError →
        exprLoop opStr orig (.val cmpv) (d :: rest) = .error .typeError) := by
  constructor <;>
  · intro opStr orig cmpv d rest hcv hpi
    simp only [exprLoop, hcv, if_true, hpi]

/-- Witness for C10: the non-numeric string `"x"` is skipped (an empty
match set, not an error), while `None` raises `TypeError` even though a
matching element follows it. -/
theorem exprLoop_int_error_modes_witness :
    exprLoop "==" (.base .none .this) (.val (.int 5)) [.base (.str "x") .this] = .ok ([], 0)
    ∧ exprLoop "==" (.base .none .this) (.val (.int 5))
        [.base .none .this, .base (.int 5) .this] = .error .typeError := by
  constructor
  · have h := exprLoop_int_error_modes.1 "==" (.base .none .this) (.int 5)
        (.base (.str "x") .this) [] (by decide) (by decide)
    exact h.trans (by decide)
  · exact exprLoop_int_error_modes.2 "==" (.base .none .this) (.int 5)
      (.base .none .this) [.base (.int 5) .this] (by decide) (by decide)
